import Mathlib

/-!
Verification of the diesel-backup dispatch and fuel model of the CLOVER
repository (module `clover/simulation/diesel.py`).

Hourly series are embedded as lists of rationals.  Pandas and numpy
elementwise operations become `List.map` and `List.zipWith`; `np.mean`,
`np.max` and `np.percentile` (with its default linear interpolation) are
embedded directly.  The failures numpy raises on empty inputs are modelled
with `Except.error`; the source performs no validation of its own.
-/

/-- Embedding of `np.max` over a one-column frame: the maximum of a list of
rationals, `none` on the empty list (where numpy raises). -/
def listMax : List ℚ → Option ℚ
  | [] => none
  | x :: xs => some (xs.foldl max x)

/-- The minimum of a list of rationals, `none` on the empty list. -/
def listMin : List ℚ → Option ℚ
  | [] => none
  | x :: xs => some (xs.foldl min x)

/-- Embedding of the interpolation `np.percentile xs p` performs (default
linear method) for a percentile argument already inside numpy's validated
range [0, 100]: with `s` the ascending sort of `xs`, `n = xs.length` and
`r = p / 100 * (n - 1)`, the result is
`s[i] + (r - i) * (s[i+1] - s[i])` for `i = ⌊r⌋`, and the last entry of `s`
when `i + 1` is out of range.  The range check numpy applies first, and its
failure on an empty sequence, are modelled in `np_percentile_checked`. -/
def npPercentile (xs : List ℚ) (p : ℚ) : ℚ :=
  let s := List.insertionSort (· ≤ ·) xs
  let r : ℚ := p / 100 * ((xs.length : ℚ) - 1)
  let i : ℕ := (Int.floor r).toNat
  if i + 1 < s.length then
    s.getD i 0 + (r - (i : ℚ)) * (s.getD (i + 1) 0 - s.getD i 0)
  else
    s.getD (s.length - 1) 0

/-- Embedding of a full `np.percentile` call as issued by
`_find_deficit_threshold`: numpy first validates that the percentile argument
lies in the range [0, 100], raising ValueError otherwise, and fails on an
empty sequence; on a non-empty sequence with an in-range argument it returns
the linear-interpolation value `npPercentile`. -/
def np_percentile_checked (xs : List ℚ) (p : ℚ) : Except String ℚ :=
  if p < 0 ∨ 100 < p then
    Except.error "percentiles must be in the range [0, 100]"
  else
    match xs with
    | [] => Except.error "percentile of an empty series"
    | _ :: _ => Except.ok (npPercentile xs p)

/-- Embedding of the `DieselGenerator` dataclass of `diesel.py`. -/
structure DieselGenerator where
  diesel_consumption : ℚ
  minimum_load : ℚ
  name : String

/-- Embedding of `_find_deficit_threshold` of `diesel.py`.

The source computes `blackout_percentage = np.mean(blackouts)[0]`,
`reliability_difference = blackout_percentage - backup_threshold`,
`percentile_threshold = 100 * (1 - reliability_difference)`, and returns
`np.percentile(unmet_energy, percentile_threshold)` when
`reliability_difference > 0`, else `np.max(unmet_energy)[0] + 1`.
It performs no validation of its own; the `Except.error` outcomes model the
pandas and numpy failures: the mean of an empty series, `np.percentile`'s
range check (ValueError for a percentile outside [0, 100]) and its failure on
an empty sequence, and the max of an empty sequence. -/
def find_deficit_threshold (unmet_energy blackouts : List ℚ)
    (backup_threshold : ℚ) : Except String ℚ :=
  match blackouts with
  | [] => Except.error "mean of an empty series"
  | _ :: _ =>
    let blackout_percentage : ℚ := blackouts.sum / (blackouts.length : ℚ)
    let reliability_difference : ℚ := blackout_percentage - backup_threshold
    let percentile_level : ℚ := 100 * (1 - reliability_difference)
    if 0 < reliability_difference then
      np_percentile_checked unmet_energy percentile_level
    else
      match listMax unmet_energy with
      | none => Except.error "max of an empty series"
      | some m => Except.ok (m + 1)

/-- Embedding of `unmet_energy.values * (unmet_energy >= energy_threshold).values`
from `get_diesel_energy_and_times`: the diesel-energy series for a fixed
threshold. -/
def diesel_energy_series (unmet_energy : List ℚ) (energy_threshold : ℚ) :
    List ℚ :=
  unmet_energy.map (fun u => u * (if energy_threshold ≤ u then 1 else 0))

/-- Embedding of `(unmet_energy >= energy_threshold) * 1` from
`get_diesel_energy_and_times`: the diesel-times (backup-active) series for a
fixed threshold. -/
def diesel_times_series (unmet_energy : List ℚ) (energy_threshold : ℚ) :
    List ℚ :=
  unmet_energy.map (fun u => if energy_threshold ≤ u then (1 : ℚ) else 0)

/-- Embedding of `get_diesel_energy_and_times` of `diesel.py`: compute the
threshold, then the energy and times series. -/
def get_diesel_energy_and_times (unmet_energy blackouts : List ℚ)
    (backup_threshold : ℚ) : Except String (List ℚ × List ℚ) :=
  (find_deficit_threshold unmet_energy blackouts backup_threshold).map
    fun energy_threshold =>
      (diesel_energy_series unmet_energy energy_threshold,
       diesel_times_series unmet_energy energy_threshold)

/-- Embedding of `get_diesel_fuel_usage` of `diesel.py`:
`load_factor = diesel_energy / capacity`;
`above_minimum = load_factor * (load_factor > minimum_load)`;
`below_minimum = (load_factor <= minimum_load) * minimum_load`;
`load_factor = diesel_times * (above_minimum + below_minimum)`;
`fuel_usage = load_factor * capacity * diesel_consumption`. -/
def get_diesel_fuel_usage (capacity : ℚ) (diesel_generator : DieselGenerator)
    (diesel_energy diesel_times : List ℚ) : List ℚ :=
  let load_factor := diesel_energy.map (fun e => e / capacity)
  let above_minimum := load_factor.map
    (fun l => l * (if diesel_generator.minimum_load < l then 1 else 0))
  let below_minimum := load_factor.map
    (fun l => (if l ≤ diesel_generator.minimum_load then (1 : ℚ) else 0) *
      diesel_generator.minimum_load)
  let dispatched_load := List.zipWith (fun t ab => t * ab) diesel_times
    (List.zipWith (· + ·) above_minimum below_minimum)
  dispatched_load.map
    (fun l => l * capacity * diesel_generator.diesel_consumption)

lemma le_foldl_max (xs : List ℚ) (a : ℚ) : a ≤ xs.foldl max a := by
  induction xs generalizing a with
  | nil => exact le_refl a
  | cons y ys ih => exact le_trans (le_max_left a y) (ih (max a y))

lemma mem_le_foldl_max (xs : List ℚ) (a : ℚ) : ∀ x ∈ xs, x ≤ xs.foldl max a := by
  induction xs generalizing a with
  | nil => intro x hx; cases hx
  | cons y ys ih =>
    intro x hx
    rcases List.mem_cons.mp hx with rfl | hx
    · exact le_trans (le_max_right a x) (le_foldl_max ys (max a x))
    · exact ih (max a y) x hx

lemma foldl_max_mem (xs : List ℚ) (a : ℚ) :
    xs.foldl max a = a ∨ xs.foldl max a ∈ xs := by
  induction xs generalizing a with
  | nil => exact Or.inl rfl
  | cons y ys ih =>
    rcases ih (max a y) with h | h
    · rcases max_cases a y with ⟨hm, _⟩ | ⟨hm, _⟩
      · exact Or.inl (by rw [List.foldl_cons, h, hm])
      · refine Or.inr ?_
        rw [List.foldl_cons, h, hm]
        exact List.mem_cons_self y ys
    · exact Or.inr (List.mem_cons_of_mem y h)

lemma ge_foldl_min (xs : List ℚ) (a : ℚ) : xs.foldl min a ≤ a := by
  induction xs generalizing a with
  | nil => exact le_refl a
  | cons y ys ih => exact le_trans (ih (min a y)) (min_le_left a y)

lemma foldl_min_le_mem (xs : List ℚ) (a : ℚ) : ∀ x ∈ xs, xs.foldl min a ≤ x := by
  induction xs generalizing a with
  | nil => intro x hx; cases hx
  | cons y ys ih =>
    intro x hx
    rcases List.mem_cons.mp hx with rfl | hx
    · exact le_trans (ge_foldl_min ys (min a x)) (min_le_right a x)
    · exact ih (min a y) x hx

lemma foldl_min_mem (xs : List ℚ) (a : ℚ) :
    xs.foldl min a = a ∨ xs.foldl min a ∈ xs := by
  induction xs generalizing a with
  | nil => exact Or.inl rfl
  | cons y ys ih =>
    rcases ih (min a y) with h | h
    · rcases min_cases a y with ⟨hm, _⟩ | ⟨hm, _⟩
      · exact Or.inl (by rw [List.foldl_cons, h, hm])
      · refine Or.inr ?_
        rw [List.foldl_cons, h, hm]
        exact List.mem_cons_self y ys
    · exact Or.inr (List.mem_cons_of_mem y h)

lemma listMax_spec (xs : List ℚ) (h : xs ≠ []) :
    ∃ m, listMax xs = some m ∧ m ∈ xs ∧ ∀ x ∈ xs, x ≤ m := by
  match xs with
  | [] => exact absurd rfl h
  | y :: ys =>
    refine ⟨ys.foldl max y, rfl, ?_, ?_⟩
    · rcases foldl_max_mem ys y with h1 | h1
      · rw [h1]; exact List.mem_cons_self y ys
      · exact List.mem_cons_of_mem y h1
    · intro x hx
      rcases List.mem_cons.mp hx with rfl | hx
      · exact le_foldl_max ys x
      · exact mem_le_foldl_max ys y x hx

lemma listMin_spec (xs : List ℚ) (h : xs ≠ []) :
    ∃ m, listMin xs = some m ∧ m ∈ xs ∧ ∀ x ∈ xs, m ≤ x := by
  match xs with
  | [] => exact absurd rfl h
  | y :: ys =>
    refine ⟨ys.foldl min y, rfl, ?_, ?_⟩
    · rcases foldl_min_mem ys y with h1 | h1
      · rw [h1]; exact List.mem_cons_self y ys
      · exact List.mem_cons_of_mem y h1
    · intro x hx
      rcases List.mem_cons.mp hx with rfl | hx
      · exact ge_foldl_min ys x
      · exact foldl_min_le_mem ys y x hx

lemma listMax_eq_of (xs : List ℚ) (m : ℚ) (hm : m ∈ xs)
    (hle : ∀ x ∈ xs, x ≤ m) : listMax xs = some m := by
  obtain ⟨M, hM, hMmem, hMle⟩ := listMax_spec xs (List.ne_nil_of_mem hm)
  rw [hM, le_antisymm (hle M hMmem) (hMle m hm)]

lemma listMin_eq_of (xs : List ℚ) (m : ℚ) (hm : m ∈ xs)
    (hle : ∀ x ∈ xs, m ≤ x) : listMin xs = some m := by
  obtain ⟨M, hM, hMmem, hMle⟩ := listMin_spec xs (List.ne_nil_of_mem hm)
  rw [hM, le_antisymm (hMle m hm) (hle M hMmem)]

lemma sorted_getD_le (s : List ℚ) (hs : s.Sorted (· ≤ ·)) (i j : ℕ)
    (hij : i ≤ j) (hj : j < s.length) : s.getD i 0 ≤ s.getD j 0 := by
  have hi : i < s.length := lt_of_le_of_lt hij hj
  rw [List.getD_eq_getElem s 0 hi, List.getD_eq_getElem s 0 hj]
  have := hs.rel_get_of_le (show (⟨i, hi⟩ : Fin s.length) ≤ ⟨j, hj⟩ from hij)
  simpa [List.get_eq_getElem] using this

lemma listMax_of_sorted_perm (xs s : List ℚ) (hp : List.Perm s xs)
    (hs : s.Sorted (· ≤ ·)) (hne : xs ≠ []) :
    listMax xs = some (s.getD (s.length - 1) 0) := by
  have hsne : s ≠ [] := by
    intro hnil
    exact hne (List.Perm.eq_nil (hnil ▸ hp).symm)
  have hslen : 0 < s.length := List.length_pos.mpr hsne
  have hlast : s.length - 1 < s.length := by omega
  refine listMax_eq_of xs _ ?_ ?_
  · rw [List.getD_eq_getElem s 0 hlast]
    exact hp.mem_iff.mp (List.getElem_mem hlast)
  · intro x hx
    obtain ⟨i, hi, hxi⟩ := List.mem_iff_getElem.mp (hp.mem_iff.mpr hx)
    rw [← hxi, ← List.getD_eq_getElem s 0 hi]
    exact sorted_getD_le s hs i (s.length - 1) (by omega) hlast

lemma listMin_of_sorted_perm (xs s : List ℚ) (hp : List.Perm s xs)
    (hs : s.Sorted (· ≤ ·)) (hne : xs ≠ []) :
    listMin xs = some (s.getD 0 0) := by
  have hsne : s ≠ [] := by
    intro hnil
    exact hne (List.Perm.eq_nil (hnil ▸ hp).symm)
  have hslen : 0 < s.length := List.length_pos.mpr hsne
  refine listMin_eq_of xs _ ?_ ?_
  · rw [List.getD_eq_getElem s 0 hslen]
    exact hp.mem_iff.mp (List.getElem_mem hslen)
  · intro x hx
    obtain ⟨i, hi, hxi⟩ := List.mem_iff_getElem.mp (hp.mem_iff.mpr hx)
    rw [← hxi, ← List.getD_eq_getElem s 0 hi]
    exact sorted_getD_le s hs 0 i (by omega) hi

lemma npPercentile_hundred (xs : List ℚ) (hne : xs ≠ []) :
    npPercentile xs 100 = ((listMax xs).getD 0 : ℚ) := by
  have hp := List.perm_insertionSort (· ≤ ·) xs
  have hs := List.sorted_insertionSort (· ≤ ·) xs
  have hlen : (List.insertionSort (· ≤ ·) xs).length = xs.length := hp.length_eq
  have hn : 0 < xs.length := List.length_pos.mpr hne
  have hfloor : Int.floor ((100 : ℚ) / 100 * ((xs.length : ℚ) - 1)) =
      (xs.length : ℤ) - 1 := by
    have hcast : (100 : ℚ) / 100 * ((xs.length : ℚ) - 1) =
        (((xs.length : ℤ) - 1 : ℤ) : ℚ) := by push_cast; ring
    rw [hcast, Int.floor_intCast]
  have htoNat : ((xs.length : ℤ) - 1).toNat = xs.length - 1 := by omega
  rw [listMax_of_sorted_perm xs _ hp hs hne, Option.getD_some]
  simp only [npPercentile, hfloor, htoNat, hlen]
  rw [if_neg (by omega)]

lemma npPercentile_zero (xs : List ℚ) (hne : xs ≠ []) :
    npPercentile xs 0 = ((listMin xs).getD 0 : ℚ) := by
  have hp := List.perm_insertionSort (· ≤ ·) xs
  have hs := List.sorted_insertionSort (· ≤ ·) xs
  have hlen : (List.insertionSort (· ≤ ·) xs).length = xs.length := hp.length_eq
  have hn : 0 < xs.length := List.length_pos.mpr hne
  have hr : (0 : ℚ) / 100 * ((xs.length : ℚ) - 1) = 0 := by norm_num
  rw [listMin_of_sorted_perm xs _ hp hs hne, Option.getD_some]
  simp only [npPercentile, hr, Int.floor_zero, Int.toNat_zero]
  by_cases hcase : 0 + 1 < (List.insertionSort (· ≤ ·) xs).length
  · rw [if_pos hcase]
    push_cast
    ring
  · rw [if_neg hcase]
    have h1 : (List.insertionSort (· ≤ ·) xs).length = 1 := by omega
    rw [h1]

lemma diesel_times_series_getD (unmet : List ℚ) (t : ℚ) (h : ℕ)
    (hh : h < unmet.length) :
    (diesel_times_series unmet t).getD h 0 =
      (if t ≤ unmet.getD h 0 then 1 else 0) := by
  rw [List.getD_eq_getElem _ 0 (by simpa [diesel_times_series] using hh),
      List.getD_eq_getElem unmet 0 hh]
  simp [diesel_times_series]

lemma diesel_energy_series_getD (unmet : List ℚ) (t : ℚ) (h : ℕ)
    (hh : h < unmet.length) :
    (diesel_energy_series unmet t).getD h 0 =
      unmet.getD h 0 * (if t ≤ unmet.getD h 0 then 1 else 0) := by
  rw [List.getD_eq_getElem _ 0 (by simpa [diesel_energy_series] using hh),
      List.getD_eq_getElem unmet 0 hh]
  simp [diesel_energy_series]

lemma get_diesel_fuel_usage_length (capacity : ℚ) (g : DieselGenerator)
    (energy times : List ℚ) (hlen : times.length = energy.length) :
    (get_diesel_fuel_usage capacity g energy times).length = energy.length := by
  simp [get_diesel_fuel_usage, hlen]

lemma get_diesel_fuel_usage_getD (capacity : ℚ) (g : DieselGenerator)
    (energy times : List ℚ) (hlen : times.length = energy.length) (h : ℕ)
    (hh : h < energy.length) :
    (get_diesel_fuel_usage capacity g energy times).getD h 0 =
      times.getD h 0 *
        (if g.minimum_load < energy.getD h 0 / capacity
          then energy.getD h 0 / capacity else g.minimum_load) *
        capacity * g.diesel_consumption := by
  have hfl : (get_diesel_fuel_usage capacity g energy times).length =
      energy.length := get_diesel_fuel_usage_length capacity g energy times hlen
  rw [List.getD_eq_getElem _ 0 (by rw [hfl]; exact hh),
      List.getD_eq_getElem times 0 (by rw [hlen]; exact hh),
      List.getD_eq_getElem energy 0 hh]
  simp only [get_diesel_fuel_usage, List.getElem_map, List.getElem_zipWith]
  by_cases hc : g.minimum_load < energy[h] / capacity
  · rw [if_pos hc, if_pos hc, if_neg (not_le.mpr hc)]
    ring
  · rw [if_neg hc, if_neg hc, if_pos (not_lt.mp hc)]
    ring

/-- Whether an embedded computation returns normally rather than failing. -/
def returnsOk {α : Type} : Except String α → Bool
  | Except.ok _ => true
  | Except.error _ => false

lemma sum_le_length_of_01 (l : List ℚ) (h01 : ∀ b ∈ l, b = 0 ∨ b = 1) :
    l.sum ≤ (l.length : ℚ) := by
  induction l with
  | nil => simp
  | cons b bs ih =>
    have hbs : ∀ x ∈ bs, x = 0 ∨ x = 1 := fun x hx =>
      h01 x (List.mem_cons_of_mem b hx)
    have hb : b ≤ 1 := by
      rcases h01 b (List.mem_cons_self b bs) with rfl | rfl <;> norm_num
    rw [List.sum_cons, List.length_cons]
    push_cast
    linarith [ih hbs]

lemma percentile_level_in_range (blackouts : List ℚ) (backup_threshold : ℚ)
    (hb : blackouts ≠ []) (h01 : ∀ b ∈ blackouts, b = 0 ∨ b = 1)
    (ht0 : 0 ≤ backup_threshold)
    (hgap : 0 < blackouts.sum / (blackouts.length : ℚ) - backup_threshold) :
    ¬ (100 * (1 - (blackouts.sum / (blackouts.length : ℚ) -
          backup_threshold)) < 0 ∨
        100 < 100 * (1 - (blackouts.sum / (blackouts.length : ℚ) -
          backup_threshold))) := by
  have hlen : (0 : ℚ) < (blackouts.length : ℚ) := by
    have := List.length_pos.mpr hb
    exact_mod_cast this
  have hmean1 : blackouts.sum / (blackouts.length : ℚ) ≤ 1 := by
    rw [div_le_one hlen]
    exact sum_le_length_of_01 blackouts h01
  push_neg
  constructor
  · linarith
  · linarith

/-- C2: with the threshold fixed, the dispatch builder sets, for each hour h,
backup_active[h] to 1 exactly when unmet_energy[h] >= threshold (so an hour
whose deficit equals the threshold is covered) and 0 otherwise, and
backup_energy[h] to unmet_energy[h] when active and 0 otherwise. -/
theorem dispatch_builder_per_hour (unmet_energy : List ℚ)
    (energy_threshold : ℚ) (h : ℕ) (hh : h < unmet_energy.length) :
    (diesel_times_series unmet_energy energy_threshold).getD h 0 =
      (if energy_threshold ≤ unmet_energy.getD h 0 then 1 else 0) ∧
    (diesel_energy_series unmet_energy energy_threshold).getD h 0 =
      (if energy_threshold ≤ unmet_energy.getD h 0
        then unmet_energy.getD h 0 else 0) := by
  refine ⟨diesel_times_series_getD unmet_energy energy_threshold h hh, ?_⟩
  rw [diesel_energy_series_getD unmet_energy energy_threshold h hh]
  by_cases hc : energy_threshold ≤ unmet_energy.getD h 0
  · rw [if_pos hc, if_pos hc, mul_one]
  · rw [if_neg hc, if_neg hc, mul_zero]

/-- C2 witness: hour 0 of the series [3] with threshold 2 is active with
energy 3. -/
theorem dispatch_builder_per_hour_witness :
    0 < ([3] : List ℚ).length ∧
    ((diesel_times_series [3] 2).getD 0 0 =
        (if (2 : ℚ) ≤ ([3] : List ℚ).getD 0 0 then 1 else 0) ∧
      (diesel_energy_series [3] 2).getD 0 0 =
        (if (2 : ℚ) ≤ ([3] : List ℚ).getD 0 0
          then ([3] : List ℚ).getD 0 0 else 0)) :=
  ⟨by norm_num, dispatch_builder_per_hour [3] 2 0 (by norm_num)⟩

/-- C3: hourly fuel usage is 0 for inactive hours; for active hours it is
effective_load * capacity * fuel_consumption, where effective_load is the raw
load factor backup_energy/capacity if it exceeds minimum_load and minimum_load
otherwise; concretely capacity 10, minimum load 3/10, consumption 2/5, energy 2
on an active hour gives 6/5. -/
theorem fuel_usage_per_hour (capacity : ℚ) (g : DieselGenerator)
    (energy times : List ℚ) (hcap : 0 < capacity) (hml0 : 0 ≤ g.minimum_load)
    (hml1 : g.minimum_load ≤ 1) (hfc : 0 < g.diesel_consumption)
    (hlen : times.length = energy.length) (h : ℕ) (hh : h < energy.length) :
    ((times.getD h 0 = 0 →
        (get_diesel_fuel_usage capacity g energy times).getD h 0 = 0) ∧
      (times.getD h 0 = 1 →
        (get_diesel_fuel_usage capacity g energy times).getD h 0 =
          (if g.minimum_load < energy.getD h 0 / capacity
            then energy.getD h 0 / capacity else g.minimum_load) *
            capacity * g.diesel_consumption)) ∧
    get_diesel_fuel_usage 10 ⟨2/5, 3/10, "backup"⟩ [2] [1] = [6/5] := by
  refine ⟨⟨?_, ?_⟩, ?_⟩
  · intro h0
    rw [get_diesel_fuel_usage_getD capacity g energy times hlen h hh, h0]
    ring
  · intro h1
    rw [get_diesel_fuel_usage_getD capacity g energy times hlen h hh, h1]
    ring
  · norm_num [get_diesel_fuel_usage]

/-- C3 witness: at capacity 10, minimum load 3/10, consumption 2/5, series
energy [2] and times [1], hour 0 satisfies the per-hour fuel formula. -/
theorem fuel_usage_per_hour_witness :
    (0 : ℚ) < 10 ∧ (0 : ℚ) ≤ 3/10 ∧ (3/10 : ℚ) ≤ 1 ∧ (0 : ℚ) < 2/5 ∧
    ([1] : List ℚ).length = ([2] : List ℚ).length ∧ 0 < ([2] : List ℚ).length ∧
    ((((([1] : List ℚ).getD 0 0 = 0 →
        (get_diesel_fuel_usage 10 ⟨2/5, 3/10, "backup"⟩ [2] [1]).getD 0 0 = 0) ∧
      (([1] : List ℚ).getD 0 0 = 1 →
        (get_diesel_fuel_usage 10 ⟨2/5, 3/10, "backup"⟩ [2] [1]).getD 0 0 =
          (if (DieselGenerator.mk (2/5) (3/10) "backup").minimum_load <
              ([2] : List ℚ).getD 0 0 / 10
            then ([2] : List ℚ).getD 0 0 / 10
            else (DieselGenerator.mk (2/5) (3/10) "backup").minimum_load) *
            10 * (DieselGenerator.mk (2/5) (3/10) "backup").diesel_consumption))) ∧
      get_diesel_fuel_usage 10 ⟨2/5, 3/10, "backup"⟩ [2] [1] = [6/5]) :=
  ⟨by norm_num, by norm_num, by norm_num, by norm_num, by norm_num, by norm_num,
    fuel_usage_per_hour 10 ⟨2/5, 3/10, "backup"⟩ [2] [1] (by norm_num)
      (by norm_num) (by norm_num) (by norm_num) (by norm_num) 0 (by norm_num)⟩

/-- C4: for every active hour, fuel usage is at least
minimum_load * capacity * fuel_consumption - the minimum-load fuel floor. -/
theorem fuel_floor_honored (capacity : ℚ) (g : DieselGenerator)
    (energy times : List ℚ) (hcap : 0 < capacity) (hml0 : 0 ≤ g.minimum_load)
    (hml1 : g.minimum_load ≤ 1) (hfc : 0 < g.diesel_consumption)
    (hlen : times.length = energy.length) (h : ℕ) (hh : h < energy.length)
    (hact : times.getD h 0 = 1) (hen : 0 ≤ energy.getD h 0) :
    g.minimum_load * capacity * g.diesel_consumption ≤
      (get_diesel_fuel_usage capacity g energy times).getD h 0 := by
  rw [get_diesel_fuel_usage_getD capacity g energy times hlen h hh, hact]
  have heff : g.minimum_load ≤
      (if g.minimum_load < energy.getD h 0 / capacity
        then energy.getD h 0 / capacity else g.minimum_load) := by
    by_cases hc : g.minimum_load < energy.getD h 0 / capacity
    · rw [if_pos hc]; exact le_of_lt hc
    · rw [if_neg hc]
  nlinarith [mul_le_mul_of_nonneg_right heff
    (le_of_lt (mul_pos hcap hfc))]

/-- C4 witness: capacity 10, minimum load 3/10, consumption 2/5, energy 2 on
an active hour: the floor 3/10 * 10 * 2/5 is honored. -/
theorem fuel_floor_honored_witness :
    (0 : ℚ) < 10 ∧ (0 : ℚ) ≤ 3/10 ∧ (3/10 : ℚ) ≤ 1 ∧ (0 : ℚ) < 2/5 ∧
    ([1] : List ℚ).length = ([2] : List ℚ).length ∧ 0 < ([2] : List ℚ).length ∧
    ([1] : List ℚ).getD 0 0 = 1 ∧ (0 : ℚ) ≤ ([2] : List ℚ).getD 0 0 ∧
    (DieselGenerator.mk (2/5) (3/10) "backup").minimum_load * 10 *
        (DieselGenerator.mk (2/5) (3/10) "backup").diesel_consumption ≤
      (get_diesel_fuel_usage 10 ⟨2/5, 3/10, "backup"⟩ [2] [1]).getD 0 0 :=
  ⟨by norm_num, by norm_num, by norm_num, by norm_num, by norm_num, by norm_num,
    by norm_num, by norm_num,
    fuel_floor_honored 10 ⟨2/5, 3/10, "backup"⟩ [2] [1] (by norm_num)
      (by norm_num) (by norm_num) (by norm_num) (by norm_num) 0 (by norm_num)
      (by norm_num) (by norm_num)⟩

/-- C5 counterexample: from the valid inputs unmet [0], blackouts [1],
target 0, the dispatch is energy [0] and active [1]; at hour 0 the
backup energy is 0 while backup_active is 1, so the claimed equivalence
(backup_energy[h] = 0 iff backup_active[h] = 0) is false there. -/
theorem dispatch_zero_energy_active_counterexample :
    get_diesel_energy_and_times [0] [1] 0 = Except.ok ([0], [1]) ∧
    ¬ (((0 : ℚ) = 0) ↔ ((1 : ℚ) = 0)) := by
  constructor
  · norm_num [get_diesel_energy_and_times, find_deficit_threshold,
      np_percentile_checked, npPercentile,
      List.insertionSort, List.orderedInsert, diesel_energy_series,
      diesel_times_series, Except.map, show Int.toNat 0 = 0 from rfl]
  · norm_num

/-- C5 amended: an inactive hour carries zero backup energy and an hour with
nonzero backup energy is active, but the converse fails: an hour can be active
with zero energy, when its unmet energy is zero and the threshold is at most
zero. -/
theorem dispatch_energy_active_implications (unmet_energy : List ℚ) (t : ℚ)
    (h : ℕ) (hh : h < unmet_energy.length) :
    ((diesel_times_series unmet_energy t).getD h 0 = 0 →
      (diesel_energy_series unmet_energy t).getD h 0 = 0) ∧
    ((diesel_energy_series unmet_energy t).getD h 0 ≠ 0 →
      (diesel_times_series unmet_energy t).getD h 0 = 1) := by
  rw [diesel_times_series_getD unmet_energy t h hh,
      diesel_energy_series_getD unmet_energy t h hh]
  by_cases hc : t ≤ unmet_energy.getD h 0
  · rw [if_pos hc]
    exact ⟨fun h0 => absurd h0 one_ne_zero, fun _ => rfl⟩
  · rw [if_neg hc]
    exact ⟨fun _ => mul_zero _, fun hne => absurd (mul_zero _) hne⟩

/-- C5 amended witness: the implications hold at hour 0 of unmet [3] with
threshold 2. -/
theorem dispatch_energy_active_implications_witness :
    0 < ([3] : List ℚ).length ∧
    (((diesel_times_series [3] 2).getD 0 0 = 0 →
        (diesel_energy_series [3] 2).getD 0 0 = 0) ∧
      ((diesel_energy_series [3] 2).getD 0 0 ≠ 0 →
        (diesel_times_series [3] 2).getD 0 0 = 1)) :=
  ⟨by norm_num, dispatch_energy_active_implications [3] 2 0 (by norm_num)⟩

/-- C6 counterexample: on unmet [0,0,5,10,0], blackouts [0,0,1,1,0], target 0
the computed threshold is the 60th linear-interpolation percentile of the
unmet series, which is 2, not 0 as the claim states. -/
theorem scenario_threshold_counterexample :
    find_deficit_threshold [0, 0, 5, 10, 0] [0, 0, 1, 1, 0] 0 = Except.ok 2 ∧
    (2 : ℚ) ≠ 0 := by
  constructor
  · norm_num [find_deficit_threshold, np_percentile_checked, npPercentile,
      List.insertionSort,
      List.orderedInsert, show Int.toNat 2 = 2 from rfl]
  · norm_num

/-- C6 amended: on unmet [0,0,5,10,0], blackouts [0,0,1,1,0], target 0 the
mean blackout rate is 2/5, the gap 2/5, the percentile level 60, the
threshold the 60th linear-interpolation percentile of the unmet series,
namely 2 (not 0), and the dispatch is backup_active [0,0,1,1,0] and
backup_energy [0,0,5,10,0] as claimed. -/
theorem scenario_threshold_and_dispatch :
    find_deficit_threshold [0, 0, 5, 10, 0] [0, 0, 1, 1, 0] 0 = Except.ok 2 ∧
    get_diesel_energy_and_times [0, 0, 5, 10, 0] [0, 0, 1, 1, 0] 0 =
      Except.ok ([0, 0, 5, 10, 0], [0, 0, 1, 1, 0]) := by
  constructor
  · norm_num [find_deficit_threshold, np_percentile_checked, npPercentile,
      List.insertionSort,
      List.orderedInsert, show Int.toNat 2 = 2 from rfl]
  · norm_num [get_diesel_energy_and_times, find_deficit_threshold,
      np_percentile_checked, npPercentile,
      List.insertionSort, List.orderedInsert, diesel_energy_series,
      diesel_times_series, Except.map, show Int.toNat 2 = 2 from rfl]

/-- C8 counterexample: the non-empty series unmet [1,2] and blackouts [1] have
unequal lengths, yet the threshold calibrator returns normally (with the
0th percentile, the minimum 1) instead of failing: no InvalidInputError
exists in the code and no length validation is performed. -/
theorem mismatched_lengths_no_error :
    find_deficit_threshold [1, 2] [1] 0 = Except.ok 1 ∧
    ([1, 2] : List ℚ).length ≠ ([1] : List ℚ).length := by
  constructor
  · norm_num [find_deficit_threshold, np_percentile_checked, npPercentile,
      List.insertionSort,
      List.orderedInsert, show Int.toNat 0 = 0 from rfl]
  · norm_num

/-- C8 amended: the calibrator and the dispatch builder perform no
length-equality validation at all, and no InvalidInputError exists in the
code.  Under the claim's own input preconditions (a 0/1 blackout series and a
non-negative target, which keep the percentile level inside numpy's [0, 100]
range), they fail - inside the numpy mean, percentile or max computations,
not with a dedicated error type - exactly when one of the two series is
empty, and return normally on all non-empty inputs whether or not the lengths
agree.  (Outside those preconditions, e.g. a negative target, np.percentile's
range check can also raise on non-empty input.) -/
theorem calibrator_ok_iff_nonempty (unmet_energy blackouts : List ℚ)
    (backup_threshold : ℚ) (h01 : ∀ b ∈ blackouts, b = 0 ∨ b = 1)
    (ht0 : 0 ≤ backup_threshold) :
    (returnsOk (find_deficit_threshold unmet_energy blackouts
        backup_threshold) = true ↔
      (unmet_energy ≠ [] ∧ blackouts ≠ [])) ∧
    (returnsOk (get_diesel_energy_and_times unmet_energy blackouts
        backup_threshold) = true ↔
      (unmet_energy ≠ [] ∧ blackouts ≠ [])) := by
  have hmain : returnsOk (find_deficit_threshold unmet_energy blackouts
      backup_threshold) = true ↔ (unmet_energy ≠ [] ∧ blackouts ≠ []) := by
    cases blackouts with
    | nil => simp [find_deficit_threshold, returnsOk]
    | cons b bs =>
      by_cases hgap : 0 < ((b :: bs).sum / (((b :: bs).length : ℕ) : ℚ) -
          backup_threshold)
      · have hrange := percentile_level_in_range (b :: bs) backup_threshold
          (by simp) h01 ht0 hgap
        cases unmet_energy with
        | nil =>
          simp only [find_deficit_threshold]
          rw [if_pos hgap]
          simp only [np_percentile_checked]
          rw [if_neg hrange]
          simp [returnsOk]
        | cons u us =>
          simp only [find_deficit_threshold]
          rw [if_pos hgap]
          simp only [np_percentile_checked]
          rw [if_neg hrange]
          simp [returnsOk]
      · cases unmet_energy with
        | nil =>
          simp only [find_deficit_threshold]
          rw [if_neg hgap]
          simp [listMax, returnsOk]
        | cons u us =>
          simp only [find_deficit_threshold]
          rw [if_neg hgap]
          simp [listMax, returnsOk]
  refine ⟨hmain, ?_⟩
  rw [← hmain]
  unfold get_diesel_energy_and_times
  match find_deficit_threshold unmet_energy blackouts backup_threshold with
  | Except.ok t => simp [Except.map, returnsOk]
  | Except.error e => simp [Except.map, returnsOk]

/-- C8 amended witness: unmet [1,2] and blackouts [1] (unequal non-zero
lengths) with target 0 satisfy the hypotheses and both functions return
normally. -/
theorem calibrator_ok_iff_nonempty_witness :
    (∀ b ∈ ([1] : List ℚ), b = 0 ∨ b = 1) ∧ (0 : ℚ) ≤ 0 ∧
    ((returnsOk (find_deficit_threshold [1, 2] [1] 0) = true ↔
        (([1, 2] : List ℚ) ≠ [] ∧ ([1] : List ℚ) ≠ [])) ∧
      (returnsOk (get_diesel_energy_and_times [1, 2] [1] 0) = true ↔
        (([1, 2] : List ℚ) ≠ [] ∧ ([1] : List ℚ) ≠ []))) := by
  refine ⟨?_, le_refl 0, calibrator_ok_iff_nonempty [1, 2] [1] 0 ?_
    (le_refl 0)⟩ <;>
  · intro b hbmem
    simp only [List.mem_cons, List.not_mem_nil, or_false] at hbmem
    rw [hbmem]
    exact Or.inr rfl

/-- C1: for non-empty series and a target in [0,1], the calibrator returns the
linear-interpolation percentile 100*(1-gap) of the full unmet series when
gap = mean(blackouts) - target is positive, and max(unmet)+1 when the gap is
at most 0; the embedded percentile has the standard endpoint semantics:
percentile 100 is the maximum and percentile 0 the minimum. -/
theorem calibrator_threshold_correct (unmet_energy blackouts : List ℚ)
    (target : ℚ) (hu : unmet_energy ≠ []) (hb : blackouts ≠ [])
    (hlen : blackouts.length = unmet_energy.length)
    (h01 : ∀ b ∈ blackouts, b = 0 ∨ b = 1)
    (ht0 : 0 ≤ target) (ht1 : target ≤ 1) :
    ((0 < blackouts.sum / (blackouts.length : ℚ) - target →
        find_deficit_threshold unmet_energy blackouts target =
          Except.ok (npPercentile unmet_energy
            (100 * (1 - (blackouts.sum / (blackouts.length : ℚ) -
              target))))) ∧
      (blackouts.sum / (blackouts.length : ℚ) - target ≤ 0 →
        find_deficit_threshold unmet_energy blackouts target =
          Except.ok (((listMax unmet_energy).getD 0 : ℚ) + 1))) ∧
    npPercentile unmet_energy 100 = ((listMax unmet_energy).getD 0 : ℚ) ∧
    npPercentile unmet_energy 0 = ((listMin unmet_energy).getD 0 : ℚ) := by
  refine ⟨⟨?_, ?_⟩, npPercentile_hundred unmet_energy hu,
    npPercentile_zero unmet_energy hu⟩
  · intro hgap
    cases blackouts with
    | nil => exact absurd rfl hb
    | cons b bs =>
      cases unmet_energy with
      | nil => exact absurd rfl hu
      | cons u us =>
        have hrange := percentile_level_in_range (b :: bs) target (by simp)
          h01 ht0 hgap
        simp only [find_deficit_threshold]
        rw [if_pos hgap]
        simp only [np_percentile_checked]
        rw [if_neg hrange]
  · intro hgap
    cases blackouts with
    | nil => exact absurd rfl hb
    | cons b bs =>
      obtain ⟨m, hm, _, _⟩ := listMax_spec unmet_energy hu
      simp only [find_deficit_threshold]
      rw [if_neg (not_lt.mpr hgap), hm]
      rw [show ((some m).getD 0 : ℚ) = m from rfl]

/-- C1 witness: unmet [0,0,5,10,0], blackouts [0,0,1,1,0], target 0 satisfy
all the hypotheses, and the positive-gap branch applies with gap 2/5. -/
theorem calibrator_threshold_correct_witness :
    ([0, 0, 5, 10, 0] : List ℚ) ≠ [] ∧ ([0, 0, 1, 1, 0] : List ℚ) ≠ [] ∧
    ([0, 0, 1, 1, 0] : List ℚ).length = ([0, 0, 5, 10, 0] : List ℚ).length ∧
    (∀ b ∈ ([0, 0, 1, 1, 0] : List ℚ), b = 0 ∨ b = 1) ∧
    (0 : ℚ) ≤ 0 ∧ (0 : ℚ) ≤ 1 ∧
    (((0 < ([0, 0, 1, 1, 0] : List ℚ).sum /
          ((([0, 0, 1, 1, 0] : List ℚ).length : ℕ) : ℚ) - 0 →
        find_deficit_threshold [0, 0, 5, 10, 0] [0, 0, 1, 1, 0] 0 =
          Except.ok (npPercentile [0, 0, 5, 10, 0]
            (100 * (1 - (([0, 0, 1, 1, 0] : List ℚ).sum /
              ((([0, 0, 1, 1, 0] : List ℚ).length : ℕ) : ℚ) - 0))))) ∧
      (([0, 0, 1, 1, 0] : List ℚ).sum /
          ((([0, 0, 1, 1, 0] : List ℚ).length : ℕ) : ℚ) - 0 ≤ 0 →
        find_deficit_threshold [0, 0, 5, 10, 0] [0, 0, 1, 1, 0] 0 =
          Except.ok (((listMax [0, 0, 5, 10, 0]).getD 0 : ℚ) + 1))) ∧
      npPercentile [0, 0, 5, 10, 0] 100 =
        ((listMax [0, 0, 5, 10, 0]).getD 0 : ℚ) ∧
      npPercentile [0, 0, 5, 10, 0] 0 =
        ((listMin [0, 0, 5, 10, 0]).getD 0 : ℚ)) := by
  refine ⟨by simp, by simp, by norm_num, ?_, by norm_num, by norm_num,
    calibrator_threshold_correct [0, 0, 5, 10, 0] [0, 0, 1, 1, 0] 0
      (by simp) (by simp) (by norm_num) ?_ (by norm_num) (by norm_num)⟩
  · intro b hbmem
    simp only [List.mem_cons, List.not_mem_nil, or_false] at hbmem
    rcases hbmem with rfl | rfl | rfl | rfl | rfl
    · exact Or.inl rfl
    · exact Or.inl rfl
    · exact Or.inr rfl
    · exact Or.inr rfl
    · exact Or.inl rfl
  · intro b hbmem
    simp only [List.mem_cons, List.not_mem_nil, or_false] at hbmem
    rcases hbmem with rfl | rfl | rfl | rfl | rfl
    · exact Or.inl rfl
    · exact Or.inl rfl
    · exact Or.inr rfl
    · exact Or.inr rfl
    · exact Or.inl rfl

/-- C7: when the target is at least the mean blackout rate, the threshold is
max(unmet)+1 and the dispatch produced from it never activates the
generator: both output series are identically zero. -/
theorem sentinel_threshold_never_activates (unmet_energy blackouts : List ℚ)
    (target : ℚ) (hu : unmet_energy ≠ [])
    (hlen : blackouts.length = unmet_energy.length)
    (h01 : ∀ b ∈ blackouts, b = 0 ∨ b = 1)
    (ht : blackouts.sum / (blackouts.length : ℚ) ≤ target) :
    find_deficit_threshold unmet_energy blackouts target =
      Except.ok (((listMax unmet_energy).getD 0 : ℚ) + 1) ∧
    get_diesel_energy_and_times unmet_energy blackouts target =
      Except.ok (List.replicate unmet_energy.length 0,
        List.replicate unmet_energy.length 0) := by
  have hb : blackouts ≠ [] := by
    intro hnil
    apply hu
    apply List.eq_nil_of_length_eq_zero
    rw [← hlen, hnil]
    rfl
  obtain ⟨m, hm, hmem, hle⟩ := listMax_spec unmet_energy hu
  have hgap : ¬ (0 < blackouts.sum / (blackouts.length : ℚ) - target) := by
    rw [not_lt]
    linarith
  have hthr : find_deficit_threshold unmet_energy blackouts target =
      Except.ok (m + 1) := by
    cases blackouts with
    | nil => exact absurd rfl hb
    | cons b bs =>
      simp only [find_deficit_threshold]
      rw [if_neg hgap, hm]
  have hms : ((listMax unmet_energy).getD 0 : ℚ) = m := by rw [hm]; rfl
  have hz : ∀ u ∈ unmet_energy, ¬ ((m + 1 : ℚ) ≤ u) := by
    intro u hu2
    rw [not_le]
    exact lt_of_le_of_lt (hle u hu2) (by linarith)
  have htimes : diesel_times_series unmet_energy (m + 1) =
      List.replicate unmet_energy.length 0 := by
    rw [List.eq_replicate_iff]
    refine ⟨by simp [diesel_times_series], ?_⟩
    intro x hx
    obtain ⟨u, hu2, hux⟩ := List.mem_map.mp hx
    rw [← hux, if_neg (hz u hu2)]
  have henergy : diesel_energy_series unmet_energy (m + 1) =
      List.replicate unmet_energy.length 0 := by
    rw [List.eq_replicate_iff]
    refine ⟨by simp [diesel_energy_series], ?_⟩
    intro x hx
    obtain ⟨u, hu2, hux⟩ := List.mem_map.mp hx
    rw [← hux, if_neg (hz u hu2), mul_zero]
  refine ⟨by rw [hthr, hms], ?_⟩
  rw [get_diesel_energy_and_times, hthr]
  simp only [Except.map]
  rw [henergy, htimes]

/-- C7 witness: unmet [5], blackouts [0], target 0: mean 0 ≤ 0, the threshold
is 6 and the dispatch is all-zero. -/
theorem sentinel_threshold_never_activates_witness :
    ([5] : List ℚ) ≠ [] ∧
    ([0] : List ℚ).length = ([5] : List ℚ).length ∧
    (∀ b ∈ ([0] : List ℚ), b = 0 ∨ b = 1) ∧
    ([0] : List ℚ).sum / ((([0] : List ℚ).length : ℕ) : ℚ) ≤ 0 ∧
    (find_deficit_threshold [5] [0] 0 =
        Except.ok (((listMax [5]).getD 0 : ℚ) + 1) ∧
      get_diesel_energy_and_times [5] [0] 0 =
        Except.ok (List.replicate ([5] : List ℚ).length 0,
          List.replicate ([5] : List ℚ).length 0)) := by
  refine ⟨by norm_num, by norm_num, ?_, by norm_num,
    sentinel_threshold_never_activates [5] [0] 0 (by norm_num) (by norm_num)
      ?_ (by norm_num)⟩
  · intro b hbmem
    simp only [List.mem_cons, List.not_mem_nil, or_false] at hbmem
    rw [hbmem]
    exact Or.inl rfl
  · intro b hbmem
    simp only [List.mem_cons, List.not_mem_nil, or_false] at hbmem
    rw [hbmem]
    exact Or.inl rfl

/-- C10: the calibrator depends on the blackout series only through its mean:
two equal-length 0/1 blackout series with equal means yield identical
thresholds for every unmet series and target. -/
theorem threshold_depends_only_on_mean (unmet_energy b1 b2 : List ℚ)
    (target : ℚ) (h01a : ∀ b ∈ b1, b = 0 ∨ b = 1)
    (h01b : ∀ b ∈ b2, b = 0 ∨ b = 1) (hlen : b1.length = b2.length)
    (hmean : b1.sum / (b1.length : ℚ) = b2.sum / (b2.length : ℚ)) :
    find_deficit_threshold unmet_energy b1 target =
      find_deficit_threshold unmet_energy b2 target := by
  cases b1 with
  | nil =>
    cases b2 with
    | nil => rfl
    | cons c cs => exact absurd hlen (by simp)
  | cons b bs =>
    cases b2 with
    | nil => exact absurd hlen (by simp)
    | cons c cs =>
      simp only [find_deficit_threshold]
      rw [hmean]

/-- C10 witness: the rearranged blackout series [1,0] and [0,1] share mean 1/2
and give the same threshold on unmet [5] with target 1/2. -/
theorem threshold_depends_only_on_mean_witness :
    (∀ b ∈ ([1, 0] : List ℚ), b = 0 ∨ b = 1) ∧
    (∀ b ∈ ([0, 1] : List ℚ), b = 0 ∨ b = 1) ∧
    ([1, 0] : List ℚ).length = ([0, 1] : List ℚ).length ∧
    ([1, 0] : List ℚ).sum / ((([1, 0] : List ℚ).length : ℕ) : ℚ) =
      ([0, 1] : List ℚ).sum / ((([0, 1] : List ℚ).length : ℕ) : ℚ) ∧
    find_deficit_threshold [5] [1, 0] (1/2) =
      find_deficit_threshold [5] [0, 1] (1/2) := by
  refine ⟨?_, ?_, by norm_num, by norm_num,
    threshold_depends_only_on_mean [5] [1, 0] [0, 1] (1/2) ?_ ?_
      (by norm_num) (by norm_num)⟩ <;>
  · intro b hbmem
    simp only [List.mem_cons, List.not_mem_nil, or_false] at hbmem
    rcases hbmem with rfl | rfl
    · first
      | exact Or.inl rfl
      | exact Or.inr rfl
    · first
      | exact Or.inl rfl
      | exact Or.inr rfl

lemma countP_ge_of_le_getD (s : List ℚ) (hs : s.Sorted (· ≤ ·)) (m : ℕ)
    (hm : m < s.length) (t : ℚ) (ht : t ≤ s.getD m 0) :
    s.length - m ≤ s.countP (fun u => decide (t ≤ u)) := by
  have hdcons : s.drop m = s.getD m 0 :: s.drop (m + 1) := by
    rw [List.getD_eq_getElem s 0 hm]
    exact List.drop_eq_getElem_cons hm
  have hdropAll : ∀ x ∈ s.drop m, t ≤ x := by
    intro x hx
    rw [hdcons] at hx
    rcases List.mem_cons.mp hx with rfl | hx2
    · exact ht
    · have hsorted : (s.drop m).Pairwise (· ≤ ·) :=
        List.Pairwise.sublist (List.drop_sublist m s) hs
      rw [hdcons] at hsorted
      exact le_trans ht (List.rel_of_pairwise_cons hsorted hx2)
  have hcount : (s.drop m).countP (fun u => decide (t ≤ u)) =
      (s.drop m).length := by
    rw [List.countP_eq_length]
    intro a ha
    exact decide_eq_true (hdropAll a ha)
  calc s.length - m = (s.drop m).length := (List.length_drop m s).symm
    _ = (s.drop m).countP (fun u => decide (t ≤ u)) := hcount.symm
    _ ≤ (s.take m).countP (fun u => decide (t ≤ u)) +
        (s.drop m).countP (fun u => decide (t ≤ u)) := Nat.le_add_left _ _
    _ = s.countP (fun u => decide (t ≤ u)) := by
        rw [← List.countP_append, List.take_append_drop]

lemma floor_rank_eq (n k : ℕ) (h1 : 1 ≤ k) (h2 : k < n) :
    Int.floor ((1 - (k : ℚ) / (n : ℚ)) * ((n : ℚ) - 1)) =
      (n : ℤ) - k - 1 := by
  have hn0 : 0 < n := by omega
  have hn : (0 : ℚ) < (n : ℚ) := by exact_mod_cast hn0
  have hkQ : (k : ℚ) < (n : ℚ) := by exact_mod_cast h2
  have hx : (k : ℚ) / (n : ℚ) * (n : ℚ) = (k : ℚ) :=
    div_mul_cancel₀ _ (ne_of_gt hn)
  have hx0 : 0 ≤ (k : ℚ) / (n : ℚ) := by positivity
  have hx1 : (k : ℚ) / (n : ℚ) < 1 := (div_lt_one hn).mpr hkQ
  rw [Int.floor_eq_iff]
  constructor
  · push_cast
    nlinarith [hx, hx0]
  · push_cast
    nlinarith [hx, hx1]

lemma sum_eq_count_one (l : List ℚ) (h01 : ∀ b ∈ l, b = 0 ∨ b = 1) :
    l.sum = (l.count 1 : ℚ) := by
  induction l with
  | nil => simp
  | cons b bs ih =>
    have hbs : ∀ x ∈ bs, x = 0 ∨ x = 1 := fun x hx =>
      h01 x (List.mem_cons_of_mem b hx)
    rcases h01 b (List.mem_cons_self b bs) with rfl | rfl
    · rw [List.sum_cons, List.count_cons, ih hbs]
      norm_num
    · rw [List.sum_cons, List.count_cons, ih hbs]
      push_cast
      norm_num
      ring

lemma diesel_times_count (unmet : List ℚ) (t : ℚ) :
    (diesel_times_series unmet t).count 1 =
      unmet.countP (fun u => decide (t ≤ u)) := by
  induction unmet with
  | nil => rfl
  | cons u us ih =>
    rw [diesel_times_series] at ih ⊢
    rw [List.map_cons, List.countP_cons, List.count_cons, ih]
    by_cases hc : t ≤ u
    · rw [if_pos hc]
      norm_num [hc]
    · rw [if_neg hc]
      norm_num [hc]

lemma percentile_coverage_count (xs : List ℚ) (k : ℕ) (hxs : xs ≠ [])
    (hk1 : 1 ≤ k) (hkn : k ≤ xs.length) :
    k ≤ xs.countP (fun u => decide
      (npPercentile xs (100 * (1 - (k : ℚ) / (xs.length : ℚ))) ≤ u)) := by
  have hp := List.perm_insertionSort (· ≤ ·) xs
  have hs := List.sorted_insertionSort (· ≤ ·) xs
  have hslen : (List.insertionSort (· ≤ ·) xs).length = xs.length :=
    hp.length_eq
  have hn0 : 0 < xs.length := List.length_pos.mpr hxs
  have hnQ : (0 : ℚ) < (xs.length : ℚ) := by exact_mod_cast hn0
  rw [← hp.countP_eq]
  by_cases hcase : k = xs.length
  · -- k = n: the percentile level is 0 and the threshold is the minimum.
    have hp0 : (100 : ℚ) * (1 - (k : ℚ) / (xs.length : ℚ)) = 0 := by
      rw [hcase]
      field_simp
    have hmin2 : listMin xs =
        some ((List.insertionSort (· ≤ ·) xs).getD 0 0) :=
      listMin_of_sorted_perm xs _ hp hs hxs
    have ht : npPercentile xs (100 * (1 - (k : ℚ) / (xs.length : ℚ))) =
        (List.insertionSort (· ≤ ·) xs).getD 0 0 := by
      rw [hp0, npPercentile_zero xs hxs, hmin2]
      rfl
    have hcount := countP_ge_of_le_getD (List.insertionSort (· ≤ ·) xs) hs 0
      (by rw [hslen]; exact hn0) _ (le_of_eq ht)
    calc k ≤ xs.length := hkn
      _ = (List.insertionSort (· ≤ ·) xs).length - 0 := by
          rw [hslen, Nat.sub_zero]
      _ ≤ _ := hcount
  · -- 1 ≤ k < n: the interpolated value lies below the sorted entry at n-k.
    have hklt : k < xs.length := lt_of_le_of_ne hkn hcase
    obtain ⟨j, hj⟩ : ∃ j, xs.length = k + 1 + j := ⟨xs.length - k - 1, by omega⟩
    have hr : (100 * (1 - (k : ℚ) / (xs.length : ℚ))) / 100 *
        ((xs.length : ℚ) - 1) =
        (1 - (k : ℚ) / (xs.length : ℚ)) * ((xs.length : ℚ) - 1) := by
      ring
    have hfloor : Int.floor ((100 * (1 - (k : ℚ) / (xs.length : ℚ))) / 100 *
        ((xs.length : ℚ) - 1)) = (xs.length : ℤ) - k - 1 := by
      rw [hr]
      exact floor_rank_eq xs.length k hk1 hklt
    have hi : (Int.floor ((100 * (1 - (k : ℚ) / (xs.length : ℚ))) / 100 *
        ((xs.length : ℚ) - 1))).toNat = j := by
      rw [hfloor]
      omega
    have hcond : j + 1 < (List.insertionSort (· ≤ ·) xs).length := by
      rw [hslen]
      omega
    have ht_eq : npPercentile xs (100 * (1 - (k : ℚ) / (xs.length : ℚ))) =
        (List.insertionSort (· ≤ ·) xs).getD j 0 +
          ((100 * (1 - (k : ℚ) / (xs.length : ℚ))) / 100 *
              ((xs.length : ℚ) - 1) - (j : ℚ)) *
            ((List.insertionSort (· ≤ ·) xs).getD (j + 1) 0 -
              (List.insertionSort (· ≤ ·) xs).getD j 0) := by
      simp only [npPercentile, hi]
      rw [if_pos hcond]
    have hfrac_eq : (100 * (1 - (k : ℚ) / (xs.length : ℚ))) / 100 *
        ((xs.length : ℚ) - 1) - (j : ℚ) = (k : ℚ) / (xs.length : ℚ) := by
      rw [hr]
      have hjQ : (j : ℚ) = (xs.length : ℚ) - (k : ℚ) - 1 := by
        rw [hj]
        push_cast
        ring
      rw [hjQ]
      field_simp
      ring
    have hf0 : 0 ≤ (k : ℚ) / (xs.length : ℚ) := by positivity
    have hf1 : (k : ℚ) / (xs.length : ℚ) ≤ 1 := by
      rw [div_le_one hnQ]
      exact_mod_cast hkn
    have hab : (List.insertionSort (· ≤ ·) xs).getD j 0 ≤
        (List.insertionSort (· ≤ ·) xs).getD (j + 1) 0 :=
      sorted_getD_le _ hs j (j + 1) (by omega) hcond
    have hble : npPercentile xs (100 * (1 - (k : ℚ) / (xs.length : ℚ))) ≤
        (List.insertionSort (· ≤ ·) xs).getD (j + 1) 0 := by
      rw [ht_eq, hfrac_eq]
      nlinarith [mul_nonneg (sub_nonneg.mpr hf1) (sub_nonneg.mpr hab)]
    have hcount := countP_ge_of_le_getD (List.insertionSort (· ≤ ·) xs) hs
      (j + 1) hcond _ hble
    calc k = (List.insertionSort (· ≤ ·) xs).length - (j + 1) := by
          rw [hslen]
          omega
      _ ≤ _ := hcount

/-- C9: with target 0, the dispatch produced from the calibrated threshold
activates the generator on a fraction of hours at least as large as the
original mean blackout rate. -/
theorem target_zero_monotonic_coverage (unmet_energy blackouts : List ℚ)
    (hu : unmet_energy ≠ []) (hlen : blackouts.length = unmet_energy.length)
    (h01 : ∀ b ∈ blackouts, b = 0 ∨ b = 1) :
    ∃ energy times : List ℚ,
      get_diesel_energy_and_times unmet_energy blackouts 0 =
        Except.ok (energy, times) ∧
      blackouts.sum / (blackouts.length : ℚ) ≤
        (times.count 1 : ℚ) / (unmet_energy.length : ℚ) := by
  have hn0 : 0 < unmet_energy.length := List.length_pos.mpr hu
  have hb : blackouts ≠ [] := by
    intro hnil
    apply hu
    apply List.eq_nil_of_length_eq_zero
    rw [← hlen, hnil]
    rfl
  have hnQ : (0 : ℚ) < (unmet_energy.length : ℚ) := by exact_mod_cast hn0
  have hsum : blackouts.sum = (blackouts.count 1 : ℚ) :=
    sum_eq_count_one blackouts h01
  have hkn : blackouts.count 1 ≤ unmet_energy.length := by
    calc blackouts.count 1 ≤ blackouts.length := List.count_le_length 1 blackouts
      _ = unmet_energy.length := hlen
  by_cases hk0 : blackouts.count 1 = 0
  · obtain ⟨m, hm, hmem, hle⟩ := listMax_spec unmet_energy hu
    have hgap : ¬ (0 < blackouts.sum / (blackouts.length : ℚ) - 0) := by
      rw [hsum, hk0]
      norm_num
    refine ⟨diesel_energy_series unmet_energy (m + 1),
      diesel_times_series unmet_energy (m + 1), ?_, ?_⟩
    · rw [get_diesel_energy_and_times]
      cases blackouts with
      | nil => exact absurd rfl hb
      | cons b bs =>
        simp only [find_deficit_threshold]
        rw [if_neg hgap, hm]
        rfl
    · rw [hsum, hk0]
      norm_num
      positivity
  · have hk1 : 1 ≤ blackouts.count 1 := Nat.one_le_iff_ne_zero.mpr hk0
    have hgap : 0 < blackouts.sum / (blackouts.length : ℚ) - 0 := by
      rw [hsum, sub_zero, hlen]
      have hkQ : (0 : ℚ) < (blackouts.count 1 : ℚ) := by exact_mod_cast hk1
      positivity
    have harg : 100 * (1 - (blackouts.sum / (blackouts.length : ℚ) - 0)) =
        100 * (1 - (blackouts.count 1 : ℚ) / (unmet_energy.length : ℚ)) := by
      rw [hsum, sub_zero, hlen]
    have hrange : ¬ (100 * (1 - (blackouts.count 1 : ℚ) /
          (unmet_energy.length : ℚ)) < 0 ∨
        100 < 100 * (1 - (blackouts.count 1 : ℚ) /
          (unmet_energy.length : ℚ))) := by
      have hf0 : 0 ≤ (blackouts.count 1 : ℚ) / (unmet_energy.length : ℚ) := by
        positivity
      have hf1 : (blackouts.count 1 : ℚ) / (unmet_energy.length : ℚ) ≤ 1 := by
        rw [div_le_one hnQ]
        exact_mod_cast hkn
      push_neg
      constructor
      · linarith
      · linarith
    refine ⟨diesel_energy_series unmet_energy
        (npPercentile unmet_energy (100 *
          (1 - (blackouts.count 1 : ℚ) / (unmet_energy.length : ℚ)))),
      diesel_times_series unmet_energy
        (npPercentile unmet_energy (100 *
          (1 - (blackouts.count 1 : ℚ) / (unmet_energy.length : ℚ)))),
      ?_, ?_⟩
    · rw [get_diesel_energy_and_times]
      cases blackouts with
      | nil => exact absurd rfl hb
      | cons b bs =>
        cases unmet_energy with
        | nil => exact absurd rfl hu
        | cons u us =>
          simp only [find_deficit_threshold]
          rw [if_pos hgap, harg]
          simp only [np_percentile_checked]
          rw [if_neg hrange]
          rfl
    · rw [hsum, hlen, diesel_times_count]
      rw [div_le_div_right hnQ]
      exact_mod_cast percentile_coverage_count unmet_energy
        (blackouts.count 1) hu hk1 hkn

/-- C9 witness: unmet [0,0,5,10,0] and blackouts [0,0,1,1,0] with target 0:
the active fraction of the dispatch is at least the blackout rate 2/5. -/
theorem target_zero_monotonic_coverage_witness :
    ([0, 0, 5, 10, 0] : List ℚ) ≠ [] ∧
    ([0, 0, 1, 1, 0] : List ℚ).length = ([0, 0, 5, 10, 0] : List ℚ).length ∧
    (∀ b ∈ ([0, 0, 1, 1, 0] : List ℚ), b = 0 ∨ b = 1) ∧
    (∃ energy times : List ℚ,
      get_diesel_energy_and_times [0, 0, 5, 10, 0] [0, 0, 1, 1, 0] 0 =
        Except.ok (energy, times) ∧
      ([0, 0, 1, 1, 0] : List ℚ).sum /
          ((([0, 0, 1, 1, 0] : List ℚ).length : ℕ) : ℚ) ≤
        (times.count 1 : ℚ) /
          ((([0, 0, 5, 10, 0] : List ℚ).length : ℕ) : ℚ)) := by
  refine ⟨by simp, by norm_num, ?_,
    target_zero_monotonic_coverage [0, 0, 5, 10, 0] [0, 0, 1, 1, 0]
      (by simp) (by norm_num) ?_⟩ <;>
  · intro b hbmem
    simp only [List.mem_cons, List.not_mem_nil, or_false] at hbmem
    rcases hbmem with rfl | rfl | rfl | rfl | rfl
    · exact Or.inl rfl
    · exact Or.inl rfl
    · exact Or.inr rfl
    · exact Or.inr rfl
    · exact Or.inl rfl
